/-
Verification of the UniRCAVis dashboard (`app.py`) against its specification.

The pipeline is shallowly embedded:
  * JSON scalar cells become `Value` (string, exact rational number, or null/NaN);
    floats are modelled as exact rationals, which is faithful for every constant
    appearing in the program (0.1, 0.15, 0.5, and the data literals of the spec).
  * A pandas `DataFrame` becomes an explicit column-name list plus row lists.
  * Effectful code (`requests.get`, reading the sample file) is embedded by
    passing the outcome of each external effect as an explicit `Except` value.
  * Fallible pandas operations (`df[col]` on a missing column, shape-mismatched
    positional construction) return `Except String DataFrame`, the error being
    the exception the library would raise.
-/
import Mathlib

set_option autoImplicit false

namespace UniRCAVis

/-! ### Scalar cell values -/

/-- A JSON / pandas scalar cell: a string, an (exact) number, or null/NaN. -/
inductive Value where
  | vStr : String → Value
  | vNum : ℚ → Value
  | vNull : Value
deriving DecidableEq, Repr

/-- Decimal-string parsing, modelling the numeric coercion `pd.to_numeric`
performs on strings: an optional sign, a nonempty integer part, and an
optional nonempty fractional part.  (Exotic float syntax such as exponents
is not modelled; no claim depends on it.) -/
def digitVal (c : Char) : Option ℕ :=
  if c.isDigit then some (c.toNat - 48) else none

def parseDigits (cs : List Char) : Option ℕ :=
  if cs = [] then none
  else
    cs.foldl
      (fun acc c =>
        match acc, digitVal c with
        | some n, some d => some (10 * n + d)
        | _, _ => none)
      (some 0)

def parseRat (s : String) : Option ℚ :=
  let cs := s.data
  let signed : ℚ × List Char :=
    match cs with
    | '-' :: rest => (-1, rest)
    | '+' :: rest => (1, rest)
    | _ => (1, cs)
  let intPart := signed.2.takeWhile (fun c => c ≠ '.')
  let rest := signed.2.drop intPart.length
  match rest with
  | [] => (parseDigits intPart).map (fun n => signed.1 * (n : ℚ))
  | _ :: frac =>
      if frac.any (fun c => c = '.') then none
      else
        (parseDigits intPart).bind (fun n =>
          (parseDigits frac).map (fun f =>
            signed.1 * ((n : ℚ) + (f : ℚ) / (10 : ℚ) ^ frac.length)))

/-- Cellwise behaviour of `pd.to_numeric(col, errors="coerce")`: numbers pass
through, parseable strings become numbers, everything else becomes NaN. -/
def coerceNumeric (v : Value) : Value :=
  match v with
  | .vNum q => .vNum q
  | .vStr s => match parseRat s with | some q => .vNum q | none => .vNull
  | .vNull => .vNull

/-- `v` is a non-null cell (pandas `notna`). -/
def notNull : Value → Bool
  | .vNull => false
  | _ => true

/-- `v` is a numeric cell. -/
def isNum : Value → Bool
  | .vNum _ => true
  | _ => false

/-! ### DataFrames -/

/-- A pandas DataFrame: an ordered list of column names and the rows, each row
a list of cells aligned with `cols`. -/
structure DataFrame where
  cols : List String
  rows : List (List Value)
deriving DecidableEq, Repr

/-- All rows have exactly one cell per column. -/
def DataFrame.Aligned (df : DataFrame) : Prop :=
  ∀ r ∈ df.rows, r.length = df.cols.length

/-- Cell access within a row by position (missing positions read as NaN). -/
def getV (r : List Value) (i : ℕ) : Value :=
  r.getD i Value.vNull

/-- Index of the first occurrence of a column name. -/
def idxOf? (c : String) : List String → Option ℕ
  | [] => none
  | x :: xs => if x = c then some 0 else (idxOf? c xs).map (· + 1)

/-- The cell of row `r` in column `c` of `df`. -/
def cellAt (df : DataFrame) (c : String) (r : List Value) : Value :=
  match idxOf? c df.cols with
  | some i => getV r i
  | none => Value.vNull

/-- The list of values of column `c` (`df[c]` as a series). -/
def colVals (df : DataFrame) (c : String) : List Value :=
  df.rows.map (fun r => cellAt df c r)

/-- `df[c]`: raises `KeyError` when the column is absent. -/
def getCol (df : DataFrame) (c : String) : Except String (List Value) :=
  if c ∈ df.cols then Except.ok (colVals df c) else Except.error "KeyError"

/-- `df[c] = vals`: overwrite an existing column in place, or append a new
column at the end. -/
def setCol (df : DataFrame) (c : String) (vals : List Value) : DataFrame :=
  match idxOf? c df.cols with
  | some i => ⟨df.cols, (df.rows.zip vals).map (fun p => p.1.set i p.2)⟩
  | none => ⟨df.cols ++ [c], (df.rows.zip vals).map (fun p => p.1 ++ [p.2])⟩

/-! ### The RCA normalizer `_prepare_rca_dataframe` -/

/-- A raw RCA row as delivered by the RCA endpoint: either a keyed JSON object
or a positional JSON array. -/
inductive RawRow where
  | keyed : List (String × Value) → RawRow
  | positional : List Value → RawRow
deriving DecidableEq, Repr

/-- Key insertion used for column resolution of `pd.DataFrame(list_of_dicts)`:
union of the record keys in order of first appearance. -/
def insertKey (acc : List String) (k : String) : List String :=
  if k ∈ acc then acc else acc ++ [k]

def recordCols (recs : List (List (String × Value))) : List String :=
  recs.foldl (fun acc r => r.foldl (fun a kv => insertKey a kv.1) acc) []

/-- `pd.DataFrame(list_of_dicts)`: columns are the key union, a key missing
from a record reads as NaN. -/
def frameOfRecords (recs : List (List (String × Value))) : DataFrame :=
  ⟨recordCols recs,
   recs.map (fun r => (recordCols recs).map (fun c => (r.lookup c).getD Value.vNull))⟩

/-- `pd.DataFrame(list_of_lists, columns=cs)`: raises `ValueError` when a row's
width disagrees with the column count. -/
def frameOfLists (cs : List String) (rws : List (List Value)) :
    Except String DataFrame :=
  if rws.all (fun r => r.length == cs.length) then Except.ok ⟨cs, rws⟩
  else Except.error "ValueError"

/-- `if "rca_pub" not in df and "rca_paper" in df: df["rca_pub"] = df["rca_paper"]`
(source lines 97-98). -/
def aliasPub (df : DataFrame) : DataFrame :=
  if "rca_pub" ∉ df.cols ∧ "rca_paper" ∈ df.cols
  then setCol df "rca_pub" (colVals df "rca_paper") else df

/-- `if "rca_citation" not in df and "publication" in df:
df["rca_citation"] = df["publication"]` (source lines 99-100). -/
def aliasCitation (df : DataFrame) : DataFrame :=
  if "rca_citation" ∉ df.cols ∧ "publication" ∈ df.cols
  then setCol df "rca_citation" (colVals df "publication") else df

/-- `if "color" not in df: df["color"] = "#1f77b4"` (source lines 101-102). -/
def defaultColor (df : DataFrame) : DataFrame :=
  if "color" ∉ df.cols
  then setCol df "color" (df.rows.map (fun _ => Value.vStr "#1f77b4")) else df

/-- The column renames and the color default of `_prepare_rca_dataframe`
(source lines 97-102). -/
def aliasCols (df : DataFrame) : DataFrame :=
  defaultColor (aliasCitation (aliasPub df))

/-- `df[c] = pd.to_numeric(df[c], errors="coerce")` (source lines 104-105);
reading a missing column raises `KeyError`. -/
def numericCoerceCol (df : DataFrame) (c : String) : Except String DataFrame :=
  (getCol df c).map (fun vals => setCol df c (vals.map coerceNumeric))

/-- `df.dropna(subset=...)` (source line 106). -/
def dropna (df : DataFrame) (subset : List String) : Except String DataFrame :=
  if subset.all (fun c => decide (c ∈ df.cols)) then
    Except.ok ⟨df.cols,
      df.rows.filter (fun r => subset.all (fun c => notNull (cellAt df c r)))⟩
  else Except.error "KeyError"

/-- `df[[c1, ..., cn]]` (source line 108): reorder/select columns, raising
`KeyError` when one is absent. -/
def selectCols (df : DataFrame) (cs : List String) : Except String DataFrame :=
  if cs.all (fun c => decide (c ∈ df.cols)) then
    Except.ok ⟨cs, df.rows.map (fun r => cs.map (fun c => cellAt df c r))⟩
  else Except.error "KeyError"

/-- Output column order of the normalizer (source lines 86 and 108). -/
def canonical_columns : List String :=
  ["discipline", "rca_citation", "rca_pub", "color"]

/-- Column order assigned to positional rows (source line 94). -/
def positional_columns : List String :=
  ["discipline", "rca_pub", "rca_citation", "color"]

/-- `pd.DataFrame(rca_rows)` when the first row is a dict: every row must be a
dict (pandas raises on a mixed batch). -/
def collectKeyed : List RawRow → Except String (List (List (String × Value)))
  | [] => Except.ok []
  | RawRow.keyed kvs :: rest => (collectKeyed rest).map (fun l => kvs :: l)
  | RawRow.positional _ :: _ => Except.error "mixed row shapes"

def collectPositional : List RawRow → Except String (List (List Value))
  | [] => Except.ok []
  | RawRow.positional vs :: rest => (collectPositional rest).map (fun l => vs :: l)
  | RawRow.keyed _ :: _ => Except.error "mixed row shapes"

/-- The coercion / drop / reorder tail of `_prepare_rca_dataframe`
(source lines 104-108), applied after the column aliasing. -/
def prepareTail (df1 : DataFrame) : Except String DataFrame :=
  (numericCoerceCol df1 "rca_pub").bind (fun df2 =>
    (numericCoerceCol df2 "rca_citation").bind (fun df3 =>
      (dropna df3 ["rca_pub", "rca_citation"]).bind (fun df4 =>
        selectCols df4 canonical_columns)))

/-- The shape resolution of `_prepare_rca_dataframe` (source lines 88-95):
`first` is the first row, deciding whether the batch is keyed or positional. -/
def shapeResolve (rca_rows : List RawRow) : RawRow → Except String DataFrame
  | RawRow.keyed _ => (collectKeyed rca_rows).map frameOfRecords
  | RawRow.positional vs =>
      (collectPositional rca_rows).bind
        (fun rws => frameOfLists (positional_columns.take vs.length) rws)

/-- Shallow embedding of `_prepare_rca_dataframe` (source lines 84-108). -/
def _prepare_rca_dataframe : List RawRow → Except String DataFrame
  | [] => Except.ok ⟨canonical_columns, []⟩
  | first :: rest =>
      (shapeResolve (first :: rest) first).bind
        (fun df0 => prepareTail (aliasCols df0))

/-- `e` is a normal (non-raising) result. -/
def exceptOk {α : Type} : Except String α → Bool
  | Except.ok _ => true
  | Except.error _ => false

/-- Every row of `df` carries numeric cells in both RCA columns. -/
def allRowsNumeric (df : DataFrame) : Bool :=
  df.rows.all (fun r =>
    isNum (cellAt df "rca_pub" r) && isNum (cellAt df "rca_citation" r))

/-- `allRowsNumeric` on a normal result, vacuously true on a raised error. -/
def resultRowsNumeric : Except String DataFrame → Bool
  | Except.ok df => allRowsNumeric df
  | Except.error _ => true

/-! ### `_safe_read_json` and `fetch_institutions` -/

/-- The two external effects `fetch_institutions` performs, each embedded as
its outcome: `live` is the result of `requests.get` + `raise_for_status()` +
`.json()` (an `error` for a transport error, non-2xx status or undecodable
body), `sample_file` is the result of opening and JSON-decoding the bundled
sample file (an `error` when the file is missing or malformed). -/
structure FetchWorld (α : Type) where
  live : Except Unit α
  sample_file : Except Unit α

/-- `_safe_read_json` (source lines 26-28): opens and decodes the file with no
exception handler of its own, so a failing read propagates. -/
def _safe_read_json {α : Type} (file : Except Unit α) : Except Unit α := file

/-- `fetch_institutions` (source lines 36-45): return the live body on
success; on any exception fall back to `_safe_read_json` on the sample file. -/
def fetch_institutions {α : Type} (w : FetchWorld α) : Except Unit α :=
  match w.live with
  | Except.ok body => Except.ok body
  | Except.error _ => _safe_read_json w.sample_file

/-! ### `_extract_id` -/

/-- `full_id.rsplit("/", 1)[-1]` (source lines 31-33): the substring after the
final slash, the whole string when it has no slash. -/
def _extract_id (full_id : String) : String :=
  String.mk ((full_id.data.reverse.takeWhile (fun c => c != '/')).reverse)

/-! ### `render_results` -/

/-- An institution record of a search response (source lines 65-74). -/
structure Candidate where
  display_name : String
  country_code : String
  works_count : ℤ
  cited_by_count : ℤ
  id : String
deriving DecidableEq, Repr

/-- One element of `summary_data` (source lines 65-74). -/
structure SummaryEntry where
  name : String
  country : String
  works : ℤ
  citedBy : ℤ
  id : String
deriving DecidableEq, Repr

def summarize (item : Candidate) : SummaryEntry :=
  ⟨item.display_name, item.country_code, item.works_count, item.cited_by_count,
    _extract_id item.id⟩

/-- The selectbox label `f"{entry['名前']} ({entry['国']})"` (source line 78). -/
def entryLabel (e : SummaryEntry) : String :=
  e.name ++ " (" ++ e.country ++ ")"

/-- Python dict insertion: overwrite in place when the key exists, else append
(preserving first-insertion key order). -/
def dictInsert (m : List (String × SummaryEntry)) (k : String)
    (v : SummaryEntry) : List (String × SummaryEntry) :=
  if k ∈ m.map Prod.fst then m.map (fun kv => if kv.1 = k then (k, v) else kv)
  else m ++ [(k, v)]

/-- The dict comprehension building `label_to_item` (source lines 77-79). -/
def label_to_item (summary : List SummaryEntry) : List (String × SummaryEntry) :=
  summary.foldl (fun m e => dictInsert m (entryLabel e) e) []

/-- Python dict indexing `m[k]` over the association-list model: the value
stored at the (unique) key, `none` when absent. -/
def pyGet : List (String × SummaryEntry) → String → Option SummaryEntry
  | [], _ => none
  | kv :: t, k => if k = kv.1 then some kv.2 else pyGet t k

/-- `label_to_item[selected_label]` (source line 81): the entry the presenter
returns for a selected label. -/
def render_results_selection (results : List Candidate) (label : String) :
    Option SummaryEntry :=
  pyGet (label_to_item (results.map summarize)) label

/-! ### Axis-range computation of `render_scatter` -/

/-- The numeric cells of a series (pandas `min`/`max` skip NaN). -/
def numsOf (vs : List Value) : List ℚ :=
  vs.filterMap (fun v => match v with | Value.vNum q => some q | _ => none)

/-- Binary minimum and maximum on ℚ, written out so that they evaluate by
kernel reduction. -/
def qmin (a b : ℚ) : ℚ := if a ≤ b then a else b

def qmax (a b : ℚ) : ℚ := if a ≤ b then b else a

def seriesMin? (vs : List Value) : Option ℚ :=
  match numsOf vs with
  | [] => none
  | q :: qs => some (qs.foldl qmin q)

def seriesMax? (vs : List Value) : Option ℚ :=
  match numsOf vs with
  | [] => none
  | q :: qs => some (qs.foldl qmax q)

/-- The x- and y-axis ranges `render_scatter` computes (source lines 136-147),
with the local names `x_span = if x_max != x_min then x_max - x_min else 0.5`
and `x_padding = max(0.1, x_span * 0.15)` substituted inline; `none` when the
table is empty (the early return on line 113) or an axis has no numeric
data. -/
def render_scatter_ranges (df : DataFrame) : Option ((ℚ × ℚ) × (ℚ × ℚ)) :=
  if df.rows.isEmpty then none
  else
    match seriesMin? (colVals df "rca_pub"), seriesMax? (colVals df "rca_pub"),
        seriesMin? (colVals df "rca_citation"),
        seriesMax? (colVals df "rca_citation") with
    | some x_min, some x_max, some y_min, some y_max =>
        some ((x_min - qmax 0.1 ((if x_max ≠ x_min then x_max - x_min else 0.5) * 0.15),
            x_max + qmax 0.1 ((if x_max ≠ x_min then x_max - x_min else 0.5) * 0.15)),
          (y_min - qmax 0.1 ((if y_max ≠ y_min then y_max - y_min else 0.5) * 0.15),
            y_max + qmax 0.1 ((if y_max ≠ y_min then y_max - y_min else 0.5) * 0.15)))
    | _, _, _, _ => none

/-! ## Supporting lemmas -/

theorem coerceNumeric_shape (v : Value) :
    (∃ q, coerceNumeric v = Value.vNum q) ∨ coerceNumeric v = Value.vNull := by
  cases v with
  | vNum q => exact Or.inl ⟨q, rfl⟩
  | vNull => exact Or.inr rfl
  | vStr s =>
      cases h : parseRat s with
      | none => exact Or.inr (by simp [coerceNumeric, h])
      | some q => exact Or.inl ⟨q, by simp [coerceNumeric, h]⟩

/-! ### Lemmas about column indices and cell access -/

theorem idxOf?_eq_none_iff (c : String) (l : List String) :
    idxOf? c l = none ↔ c ∉ l := by
  induction l with
  | nil => simp [idxOf?]
  | cons x xs ih =>
      simp only [idxOf?, List.mem_cons]
      by_cases hx : x = c
      · simp [hx]
      · rw [if_neg hx]
        constructor
        · intro h hmem
          rcases hmem with he | hm
          · exact hx he.symm
          · have hn : idxOf? c xs = none := by
              cases hj : idxOf? c xs with
              | none => rfl
              | some j => rw [hj] at h; simp at h
            exact ih.mp hn hm
        · intro h
          have hnx : c ∉ xs := fun hm => h (Or.inr hm)
          rw [ih.mpr hnx]
          rfl

theorem idxOf?_isSome_of_mem {c : String} {l : List String} (h : c ∈ l) :
    ∃ i, idxOf? c l = some i := by
  cases hi : idxOf? c l with
  | none => exact absurd h ((idxOf?_eq_none_iff c l).mp hi)
  | some i => exact ⟨i, rfl⟩

theorem idxOf?_lt_length {c : String} {l : List String} {i : ℕ}
    (h : idxOf? c l = some i) : i < l.length := by
  induction l generalizing i with
  | nil => simp [idxOf?] at h
  | cons x xs ih =>
      simp only [idxOf?] at h
      by_cases hx : x = c
      · rw [if_pos hx] at h
        obtain rfl : i = 0 := (Option.some.inj h).symm
        simp
      · rw [if_neg hx] at h
        cases hj : idxOf? c xs with
        | none => rw [hj] at h; simp at h
        | some j =>
            rw [hj] at h
            obtain rfl : i = j + 1 := (Option.some.inj h).symm
            have := ih hj
            simp only [List.length_cons]
            omega

theorem idxOf?_getD {c : String} {l : List String} {i : ℕ}
    (h : idxOf? c l = some i) : l.getD i "" = c := by
  induction l generalizing i with
  | nil => simp [idxOf?] at h
  | cons x xs ih =>
      simp only [idxOf?] at h
      by_cases hx : x = c
      · rw [if_pos hx] at h
        obtain rfl : i = 0 := (Option.some.inj h).symm
        simpa using hx
      · rw [if_neg hx] at h
        cases hj : idxOf? c xs with
        | none => rw [hj] at h; simp at h
        | some j =>
            rw [hj] at h
            obtain rfl : i = j + 1 := (Option.some.inj h).symm
            simpa using ih hj

theorem idxOf?_injective {c c' : String} {l : List String} {i : ℕ}
    (hc : idxOf? c l = some i) (hc' : idxOf? c' l = some i) : c = c' := by
  have h1 := idxOf?_getD hc
  have h2 := idxOf?_getD hc'
  rw [h1] at h2
  exact h2

theorem idxOf?_append_left {c : String} {l l₂ : List String} {i : ℕ}
    (h : idxOf? c l = some i) : idxOf? c (l ++ l₂) = some i := by
  induction l generalizing i with
  | nil => simp [idxOf?] at h
  | cons x xs ih =>
      simp only [idxOf?] at h
      simp only [List.cons_append, idxOf?, List.append_eq]
      by_cases hx : x = c
      · rw [if_pos hx] at h
        rw [if_pos hx]
        exact h
      · rw [if_neg hx] at h
        rw [if_neg hx]
        cases hj : idxOf? c xs with
        | none => rw [hj] at h; simp at h
        | some j =>
            rw [hj] at h
            rw [ih hj]
            exact h

theorem idxOf?_append_self {c : String} {l : List String} (h : c ∉ l) :
    idxOf? c (l ++ [c]) = some l.length := by
  induction l with
  | nil => simp [idxOf?]
  | cons x xs ih =>
      have hx : x ≠ c := fun he => h (he ▸ List.mem_cons_self x xs)
      have hxs : c ∉ xs := fun hm => h (List.mem_cons_of_mem x hm)
      simp [List.cons_append, idxOf?, if_neg hx, ih hxs]

theorem getV_set_self {r : List Value} {i : ℕ} (h : i < r.length) (v : Value) :
    getV (r.set i v) i = v := by
  induction r generalizing i with
  | nil => simp at h
  | cons a t ih =>
      cases i with
      | zero => simp [getV]
      | succ j =>
          simp only [List.set_cons_succ]
          exact ih (by simpa using h)

theorem getV_set_ne {r : List Value} {i j : ℕ} (h : i ≠ j) (v : Value) :
    getV (r.set i v) j = getV r j := by
  induction r generalizing i j with
  | nil => simp [getV]
  | cons a t ih =>
      cases i with
      | zero =>
          cases j with
          | zero => exact absurd rfl h
          | succ j' => simp [getV]
      | succ i' =>
          cases j with
          | zero => simp [getV]
          | succ j' =>
              simp only [List.set_cons_succ]
              exact ih (fun he => h (by simp [he]))

theorem getV_append_right (r : List Value) (v : Value) :
    getV (r ++ [v]) r.length = v := by
  induction r with
  | nil => simp [getV]
  | cons a t ih =>
      simp only [List.cons_append, List.length_cons, getV, List.getD_cons_succ]
      exact ih

theorem getV_append_left {r : List Value} {i : ℕ} (h : i < r.length) (v : Value) :
    getV (r ++ [v]) i = getV r i := by
  induction r generalizing i with
  | nil => simp at h
  | cons a t ih =>
      cases i with
      | zero => simp [getV]
      | succ j =>
          simp only [List.cons_append]
          exact ih (by simpa using h)

/-! ### Lemmas about whole-column reads after `setCol` -/

theorem zip_set_col_self {i : ℕ} :
    ∀ (rs : List (List Value)) (vs : List Value), rs.length = vs.length →
      (∀ r ∈ rs, i < r.length) →
      ((rs.zip vs).map (fun p => p.1.set i p.2)).map (fun r => getV r i) = vs := by
  intro rs
  induction rs with
  | nil =>
      intro vs hlen _
      cases vs with
      | nil => rfl
      | cons v vt => simp at hlen
  | cons r rt ih =>
      intro vs hlen hb
      cases vs with
      | nil => simp at hlen
      | cons v vt =>
          simp only [List.zip_cons_cons, List.map_cons, List.cons.injEq]
          constructor
          · exact getV_set_self (hb r (List.mem_cons_self r rt)) v
          · exact ih vt (by simpa using hlen)
              (fun x hx => hb x (List.mem_cons_of_mem r hx))

theorem zip_set_col_ne {i j : ℕ} (hij : i ≠ j) :
    ∀ (rs : List (List Value)) (vs : List Value), rs.length = vs.length →
      ((rs.zip vs).map (fun p => p.1.set i p.2)).map (fun r => getV r j)
        = rs.map (fun r => getV r j) := by
  intro rs
  induction rs with
  | nil => intro vs _; rfl
  | cons r rt ih =>
      intro vs hlen
      cases vs with
      | nil => simp at hlen
      | cons v vt =>
          simp only [List.zip_cons_cons, List.map_cons, List.cons.injEq]
          exact ⟨getV_set_ne hij v, ih vt (by simpa using hlen)⟩

theorem zip_append_col_self {n : ℕ} :
    ∀ (rs : List (List Value)) (vs : List Value), rs.length = vs.length →
      (∀ r ∈ rs, r.length = n) →
      ((rs.zip vs).map (fun p => p.1 ++ [p.2])).map (fun r => getV r n) = vs := by
  intro rs
  induction rs with
  | nil =>
      intro vs hlen _
      cases vs with
      | nil => rfl
      | cons v vt => simp at hlen
  | cons r rt ih =>
      intro vs hlen hb
      cases vs with
      | nil => simp at hlen
      | cons v vt =>
          simp only [List.zip_cons_cons, List.map_cons, List.cons.injEq]
          constructor
          · rw [← hb r (List.mem_cons_self r rt)]
            exact getV_append_right r v
          · exact ih vt (by simpa using hlen)
              (fun x hx => hb x (List.mem_cons_of_mem r hx))

theorem zip_append_col_lt {j : ℕ} :
    ∀ (rs : List (List Value)) (vs : List Value), rs.length = vs.length →
      (∀ r ∈ rs, j < r.length) →
      ((rs.zip vs).map (fun p => p.1 ++ [p.2])).map (fun r => getV r j)
        = rs.map (fun r => getV r j) := by
  intro rs
  induction rs with
  | nil => intro vs _ _; rfl
  | cons r rt ih =>
      intro vs hlen hb
      cases vs with
      | nil => simp at hlen
      | cons v vt =>
          simp only [List.zip_cons_cons, List.map_cons, List.cons.injEq]
          constructor
          · exact getV_append_left (hb r (List.mem_cons_self r rt)) v
          · exact ih vt (by simpa using hlen)
              (fun x hx => hb x (List.mem_cons_of_mem r hx))

/-! ### Structural lemmas about `setCol`, `colVals`, `getCol` -/

theorem setCol_cols (df : DataFrame) (c : String) (vals : List Value) :
    (setCol df c vals).cols = if c ∈ df.cols then df.cols else df.cols ++ [c] := by
  cases h : idxOf? c df.cols with
  | none =>
      have : c ∉ df.cols := (idxOf?_eq_none_iff c df.cols).mp h
      simp [setCol, h, this]
  | some i =>
      have : c ∈ df.cols := by
        by_contra hc
        rw [(idxOf?_eq_none_iff c df.cols).mpr hc] at h
        cases h
      simp [setCol, h, this]

theorem mem_setCol_cols_self (df : DataFrame) (c : String) (vals : List Value) :
    c ∈ (setCol df c vals).cols := by
  rw [setCol_cols]
  by_cases h : c ∈ df.cols
  · simp [h]
  · simp [h]

theorem mem_setCol_cols_of_mem {df : DataFrame} {c' : String} (c : String)
    (vals : List Value) (h : c' ∈ df.cols) : c' ∈ (setCol df c vals).cols := by
  rw [setCol_cols]
  by_cases hc : c ∈ df.cols
  · simpa [hc]
  · simp [hc, List.mem_append, h]

theorem setCol_cols_of_mem {df : DataFrame} {c : String} (vals : List Value)
    (h : c ∈ df.cols) : (setCol df c vals).cols = df.cols := by
  rw [setCol_cols, if_pos h]

theorem setCol_rows_length {df : DataFrame} {c : String} {vals : List Value}
    (hl : vals.length = df.rows.length) :
    (setCol df c vals).rows.length = df.rows.length := by
  cases h : idxOf? c df.cols with
  | none => simp [setCol, h, List.length_zip, hl]
  | some i => simp [setCol, h, List.length_zip, hl]

theorem setCol_aligned {df : DataFrame} {c : String} {vals : List Value}
    (hA : df.Aligned) :
    (setCol df c vals).Aligned := by
  cases h : idxOf? c df.cols with
  | none =>
      intro r hr
      simp only [setCol, h, List.mem_map] at hr
      obtain ⟨p, hp, rfl⟩ := hr
      have hp1 : p.1 ∈ df.rows := List.of_mem_zip hp |>.1
      simp only [setCol, h, List.length_append, List.length_cons,
        List.length_nil, List.length_append]
      have := hA p.1 hp1
      simp [this]
  | some i =>
      intro r hr
      simp only [setCol, h, List.mem_map] at hr
      obtain ⟨p, hp, rfl⟩ := hr
      have hp1 : p.1 ∈ df.rows := List.of_mem_zip hp |>.1
      simp only [setCol, h, List.length_set]
      exact hA p.1 hp1

theorem colVals_length (df : DataFrame) (c : String) :
    (colVals df c).length = df.rows.length := by
  simp [colVals]

theorem colVals_setCol_self {df : DataFrame} {c : String} {vals : List Value}
    (hA : df.Aligned) (hl : vals.length = df.rows.length) :
    colVals (setCol df c vals) c = vals := by
  cases h : idxOf? c df.cols with
  | some i =>
      have hi : i < df.cols.length := idxOf?_lt_length h
      simp only [colVals, cellAt, setCol, h]
      exact zip_set_col_self df.rows vals hl.symm
        (fun r hr => by rw [hA r hr]; exact hi)
  | none =>
      have hc : c ∉ df.cols := (idxOf?_eq_none_iff c df.cols).mp h
      simp only [colVals, cellAt, setCol, h, idxOf?_append_self hc]
      exact zip_append_col_self df.rows vals hl.symm (fun r hr => hA r hr)

theorem colVals_setCol_ne {df : DataFrame} {c c' : String} {vals : List Value}
    (hA : df.Aligned) (hl : vals.length = df.rows.length)
    (hne : c' ≠ c) (hmem : c' ∈ df.cols) :
    colVals (setCol df c vals) c' = colVals df c' := by
  obtain ⟨j, hj⟩ := idxOf?_isSome_of_mem hmem
  cases h : idxOf? c df.cols with
  | some i =>
      have hij : i ≠ j := fun he => hne ((idxOf?_injective (he ▸ h) hj).symm)
      simp only [colVals, cellAt, setCol, h, hj]
      exact zip_set_col_ne hij df.rows vals hl.symm
  | none =>
      simp only [colVals, cellAt, setCol, h, idxOf?_append_left hj, hj]
      exact zip_append_col_lt df.rows vals hl.symm
        (fun r hr => by rw [hA r hr]; exact idxOf?_lt_length hj)

theorem cellAt_mem_colVals {df : DataFrame} {r : List Value} (c : String)
    (hr : r ∈ df.rows) : cellAt df c r ∈ colVals df c :=
  List.mem_map_of_mem (fun x => cellAt df c x) hr

theorem getCol_eq_ok {df : DataFrame} {c : String} (h : c ∈ df.cols) :
    getCol df c = Except.ok (colVals df c) := by
  simp [getCol, h]

/-! ### Lemmas about the frame constructors and the aliasing steps -/

theorem getCol_ok_iff {df : DataFrame} {c : String} {v : List Value} :
    getCol df c = Except.ok v ↔ c ∈ df.cols ∧ v = colVals df c := by
  unfold getCol
  split_ifs with h
  · constructor
    · intro he
      exact ⟨h, (Except.ok.inj he).symm⟩
    · intro ⟨_, hv⟩
      rw [hv]
  · constructor
    · intro he
      cases he
    · intro ⟨hc, _⟩
      exact absurd hc h

theorem frameOfRecords_aligned (recs : List (List (String × Value))) :
    (frameOfRecords recs).Aligned := by
  intro r hr
  simp only [frameOfRecords, List.mem_map] at hr
  obtain ⟨rec, _, rfl⟩ := hr
  simp [frameOfRecords]

theorem frameOfLists_ok {cs : List String} {rws : List (List Value)}
    {df : DataFrame} (h : frameOfLists cs rws = Except.ok df) :
    df = ⟨cs, rws⟩ ∧ ∀ r ∈ rws, r.length = cs.length := by
  unfold frameOfLists at h
  split_ifs at h with hall
  refine ⟨(Except.ok.inj h).symm, ?_⟩
  intro r hr
  simpa using List.all_eq_true.mp hall r hr

theorem collectKeyed_map (recs : List (List (String × Value))) :
    collectKeyed (recs.map RawRow.keyed) = Except.ok recs := by
  induction recs with
  | nil => rfl
  | cons rec rest ih => simp [collectKeyed, ih, Except.map]

theorem collectPositional_map (rws : List (List Value)) :
    collectPositional (rws.map RawRow.positional) = Except.ok rws := by
  induction rws with
  | nil => rfl
  | cons r rest ih => simp [collectPositional, ih, Except.map]

theorem aliasPub_aligned {df : DataFrame} (hA : df.Aligned) :
    (aliasPub df).Aligned := by
  unfold aliasPub
  split_ifs with h
  · exact setCol_aligned hA
  · exact hA

theorem aliasCitation_aligned {df : DataFrame} (hA : df.Aligned) :
    (aliasCitation df).Aligned := by
  unfold aliasCitation
  split_ifs with h
  · exact setCol_aligned hA
  · exact hA

theorem defaultColor_aligned {df : DataFrame} (hA : df.Aligned) :
    (defaultColor df).Aligned := by
  unfold defaultColor
  split_ifs with h
  · exact hA
  · exact setCol_aligned hA

theorem aliasCols_aligned {df : DataFrame} (hA : df.Aligned) :
    (aliasCols df).Aligned :=
  defaultColor_aligned (aliasCitation_aligned (aliasPub_aligned hA))

theorem aliasPub_cols_or (df : DataFrame) :
    (aliasPub df).cols = df.cols ∨ (aliasPub df).cols = df.cols ++ ["rca_pub"] := by
  unfold aliasPub
  split_ifs with h
  · right
    rw [setCol_cols, if_neg h.1]
  · left
    rfl

theorem aliasCitation_cols_or (df : DataFrame) :
    (aliasCitation df).cols = df.cols ∨
      (aliasCitation df).cols = df.cols ++ ["rca_citation"] := by
  unfold aliasCitation
  split_ifs with h
  · right
    rw [setCol_cols, if_neg h.1]
  · left
    rfl

theorem defaultColor_cols_or (df : DataFrame) :
    (defaultColor df).cols = df.cols ∨
      (defaultColor df).cols = df.cols ++ ["color"] := by
  unfold defaultColor
  split_ifs with h
  · left
    rfl
  · right
    rw [setCol_cols, if_neg h]

theorem mem_of_cols_or {cols' cols : List String} {c0 c : String}
    (h : cols' = cols ∨ cols' = cols ++ [c0]) (hc : c ∈ cols) : c ∈ cols' := by
  rcases h with h | h <;> rw [h]
  · exact hc
  · exact List.mem_append_left _ hc

theorem not_mem_of_cols_or {cols' cols : List String} {c0 c : String}
    (h : cols' = cols ∨ cols' = cols ++ [c0]) (hne : c ≠ c0) (hc : c ∉ cols) :
    c ∉ cols' := by
  rcases h with h | h <;> rw [h]
  · exact hc
  · intro hmem
    rcases List.mem_append.mp hmem with hm | hm
    · exact hc hm
    · exact hne (List.mem_singleton.mp hm)

theorem aliasPub_rows_length (df : DataFrame) :
    (aliasPub df).rows.length = df.rows.length := by
  unfold aliasPub
  split_ifs with h
  · exact setCol_rows_length (colVals_length df "rca_paper")
  · rfl

theorem aliasCitation_rows_length (df : DataFrame) :
    (aliasCitation df).rows.length = df.rows.length := by
  unfold aliasCitation
  split_ifs with h
  · exact setCol_rows_length (colVals_length df "publication")
  · rfl

theorem defaultColor_rows_length (df : DataFrame) :
    (defaultColor df).rows.length = df.rows.length := by
  unfold defaultColor
  split_ifs with h
  · rfl
  · exact setCol_rows_length (by simp)

theorem aliasPub_pub_mem {df : DataFrame}
    (h : "rca_pub" ∈ df.cols ∨ "rca_paper" ∈ df.cols) :
    "rca_pub" ∈ (aliasPub df).cols := by
  unfold aliasPub
  split_ifs with hcond
  · exact mem_setCol_cols_self _ _ _
  · rcases h with hp | hpaper
    · exact hp
    · by_contra hp
      exact hcond ⟨hp, hpaper⟩

theorem aliasCitation_cit_mem {df : DataFrame}
    (h : "rca_citation" ∈ df.cols ∨ "publication" ∈ df.cols) :
    "rca_citation" ∈ (aliasCitation df).cols := by
  unfold aliasCitation
  split_ifs with hcond
  · exact mem_setCol_cols_self _ _ _
  · rcases h with hc | hpub
    · exact hc
    · by_contra hc
      exact hcond ⟨hc, hpub⟩

theorem defaultColor_color_mem (df : DataFrame) :
    "color" ∈ (defaultColor df).cols := by
  unfold defaultColor
  split_ifs with h
  · exact h
  · exact mem_setCol_cols_self _ _ _

theorem aliasCitation_colVals_ne {df : DataFrame} {c : String} (hA : df.Aligned)
    (hmem : c ∈ df.cols) (hne : c ≠ "rca_citation") :
    colVals (aliasCitation df) c = colVals df c := by
  unfold aliasCitation
  split_ifs with h
  · exact colVals_setCol_ne hA (colVals_length df "publication") hne hmem
  · rfl

theorem defaultColor_colVals_ne {df : DataFrame} {c : String} (hA : df.Aligned)
    (hmem : c ∈ df.cols) (hne : c ≠ "color") :
    colVals (defaultColor df) c = colVals df c := by
  unfold defaultColor
  split_ifs with h
  · rfl
  · exact colVals_setCol_ne hA (by simp) hne hmem

/-! ### Stepping through the `Except`-typed pipeline -/

theorem except_map_error {α β : Type} (f : α → β) (e : String) :
    (Except.error e : Except String α).map f = Except.error e := rfl

theorem except_map_ok {α β : Type} (f : α → β) (a : α) :
    (Except.ok a : Except String α).map f = Except.ok (f a) := rfl

theorem except_bind_error {α β : Type} (f : α → Except String β) (e : String) :
    (Except.error e : Except String α).bind f = Except.error e := rfl

theorem except_bind_ok {α β : Type} (f : α → Except String β) (a : α) :
    (Except.ok a : Except String α).bind f = f a := rfl

theorem numericCoerceCol_ok_iff {df out : DataFrame} {c : String} :
    numericCoerceCol df c = Except.ok out ↔
      c ∈ df.cols ∧ out = setCol df c ((colVals df c).map coerceNumeric) := by
  unfold numericCoerceCol getCol
  split_ifs with h
  · rw [except_map_ok]
    constructor
    · intro he
      exact ⟨h, (Except.ok.inj he).symm⟩
    · intro ⟨_, ho⟩
      rw [ho]
  · rw [except_map_error]
    constructor
    · intro he
      cases he
    · intro ⟨hc, _⟩
      exact absurd hc h

theorem dropna_ok_iff {df out : DataFrame} {subset : List String} :
    dropna df subset = Except.ok out ↔
      (∀ c ∈ subset, c ∈ df.cols) ∧
        out = ⟨df.cols,
          df.rows.filter (fun r => subset.all (fun c => notNull (cellAt df c r)))⟩ := by
  unfold dropna
  split_ifs with h
  · constructor
    · intro he
      refine ⟨?_, (Except.ok.inj he).symm⟩
      intro c hc
      exact of_decide_eq_true (List.all_eq_true.mp h c hc)
    · intro ⟨_, ho⟩
      rw [ho]
  · constructor
    · intro he
      cases he
    · intro ⟨hc, _⟩
      refine absurd ?_ h
      exact List.all_eq_true.mpr (fun c hcs => decide_eq_true (hc c hcs))

theorem selectCols_ok_iff {df out : DataFrame} {cs : List String} :
    selectCols df cs = Except.ok out ↔
      (∀ c ∈ cs, c ∈ df.cols) ∧
        out = ⟨cs, df.rows.map (fun r => cs.map (fun c => cellAt df c r))⟩ := by
  unfold selectCols
  split_ifs with h
  · constructor
    · intro he
      refine ⟨?_, (Except.ok.inj he).symm⟩
      intro c hc
      exact of_decide_eq_true (List.all_eq_true.mp h c hc)
    · intro ⟨_, ho⟩
      rw [ho]
  · constructor
    · intro he
      cases he
    · intro ⟨hc, _⟩
      refine absurd ?_ h
      exact List.all_eq_true.mpr (fun c hcs => decide_eq_true (hc c hcs))

theorem cellAt_canonical_map (rows' : List (List Value)) (f : String → Value) :
    cellAt ⟨canonical_columns, rows'⟩ "rca_pub"
        (canonical_columns.map f) = f "rca_pub" ∧
      cellAt ⟨canonical_columns, rows'⟩ "rca_citation"
        (canonical_columns.map f) = f "rca_citation" :=
  ⟨rfl, rfl⟩

theorem prepareTail_rows_numeric {df1 out : DataFrame} (hA : df1.Aligned)
    (h : prepareTail df1 = Except.ok out) : allRowsNumeric out = true := by
  unfold prepareTail at h
  cases h1 : numericCoerceCol df1 "rca_pub" with
  | error e => rw [h1, except_bind_error] at h; cases h
  | ok df2 =>
  rw [h1, except_bind_ok] at h
  cases h2 : numericCoerceCol df2 "rca_citation" with
  | error e => rw [h2, except_bind_error] at h; cases h
  | ok df3 =>
  rw [h2, except_bind_ok] at h
  cases h3 : dropna df3 ["rca_pub", "rca_citation"] with
  | error e => rw [h3, except_bind_error] at h; cases h
  | ok df4 =>
  rw [h3, except_bind_ok] at h
  obtain ⟨hp1, hdf2⟩ := numericCoerceCol_ok_iff.mp h1
  obtain ⟨hc2, hdf3⟩ := numericCoerceCol_ok_iff.mp h2
  obtain ⟨hsub, hdf4⟩ := dropna_ok_iff.mp h3
  obtain ⟨hsel, hout⟩ := selectCols_ok_iff.mp h
  have hA2 : df2.Aligned := by
    rw [hdf2]
    exact setCol_aligned hA
  have hA3 : df3.Aligned := by
    rw [hdf3]
    exact setCol_aligned hA2
  have hpub2 : colVals df2 "rca_pub" = (colVals df1 "rca_pub").map coerceNumeric := by
    rw [hdf2]
    exact colVals_setCol_self hA (by rw [List.length_map, colVals_length])
  have hpub3 : colVals df3 "rca_pub" = colVals df2 "rca_pub" := by
    rw [hdf3]
    exact colVals_setCol_ne hA2 (by rw [List.length_map, colVals_length])
      (by decide) (hdf2 ▸ mem_setCol_cols_self df1 "rca_pub" _)
  have hcit3 :
      colVals df3 "rca_citation" = (colVals df2 "rca_citation").map coerceNumeric := by
    rw [hdf3]
    exact colVals_setCol_self hA2 (by rw [List.length_map, colVals_length])
  have hcols4 : df4.cols = df3.cols := by rw [hdf4]
  unfold allRowsNumeric
  rw [List.all_eq_true]
  intro r' hr'
  rw [hout] at hr' ⊢
  simp only [List.mem_map] at hr'
  obtain ⟨r, hrmem, rfl⟩ := hr'
  rw [(cellAt_canonical_map _ _).1, (cellAt_canonical_map _ _).2]
  have hcell : ∀ c : String, cellAt df4 c r = cellAt df3 c r := by
    intro c
    unfold cellAt
    rw [hcols4]
  rw [hcell "rca_pub", hcell "rca_citation", Bool.and_eq_true]
  rw [hdf4] at hrmem
  have hfilter := List.mem_filter.mp hrmem
  obtain ⟨hr3, hpred⟩ := hfilter
  simp only [List.all_cons, List.all_nil, Bool.and_eq_true, and_true] at hpred
  obtain ⟨hnn_pub, hnn_cit⟩ := hpred
  constructor
  · have hmem := cellAt_mem_colVals "rca_pub" hr3
    rw [hpub3, hpub2] at hmem
    obtain ⟨v, _, hv⟩ := List.mem_map.mp hmem
    rcases coerceNumeric_shape v with ⟨q, hq⟩ | hq
    · rw [← hv, hq]
      rfl
    · rw [← hv, hq] at hnn_pub
      cases hnn_pub
  · have hmem := cellAt_mem_colVals "rca_citation" hr3
    rw [hcit3] at hmem
    obtain ⟨v, _, hv⟩ := List.mem_map.mp hmem
    rcases coerceNumeric_shape v with ⟨q, hq⟩ | hq
    · rw [← hv, hq]
      rfl
    · rw [← hv, hq] at hnn_cit
      cases hnn_cit

theorem aliasCols_mem_of_mem {df : DataFrame} {c : String} (h : c ∈ df.cols) :
    c ∈ (aliasCols df).cols :=
  mem_of_cols_or (defaultColor_cols_or _)
    (mem_of_cols_or (aliasCitation_cols_or _)
      (mem_of_cols_or (aliasPub_cols_or _) h))

theorem aliasCols_pub_mem {df : DataFrame}
    (h : "rca_pub" ∈ df.cols ∨ "rca_paper" ∈ df.cols) :
    "rca_pub" ∈ (aliasCols df).cols :=
  mem_of_cols_or (defaultColor_cols_or _)
    (mem_of_cols_or (aliasCitation_cols_or _) (aliasPub_pub_mem h))

theorem aliasCols_cit_mem {df : DataFrame}
    (h : "rca_citation" ∈ df.cols ∨ "publication" ∈ df.cols) :
    "rca_citation" ∈ (aliasCols df).cols := by
  refine mem_of_cols_or (defaultColor_cols_or _) (aliasCitation_cit_mem ?_)
  rcases h with hc | hpub
  · exact Or.inl (mem_of_cols_or (aliasPub_cols_or _) hc)
  · exact Or.inr (mem_of_cols_or (aliasPub_cols_or _) hpub)

theorem aliasCols_color_mem (df : DataFrame) :
    "color" ∈ (aliasCols df).cols :=
  defaultColor_color_mem _

theorem prepareTail_ok_of_cols {df1 : DataFrame}
    (h : ∀ c ∈ canonical_columns, c ∈ df1.cols) :
    exceptOk (prepareTail df1) = true := by
  have hstep : ∀ (df : DataFrame) (c : String), c ∈ df.cols →
      ∃ df', numericCoerceCol df c = Except.ok df' ∧ df'.cols = df.cols := by
    intro df c hc
    exact ⟨setCol df c ((colVals df c).map coerceNumeric),
      numericCoerceCol_ok_iff.mpr ⟨hc, rfl⟩, setCol_cols_of_mem _ hc⟩
  obtain ⟨df2, h1, hc2⟩ := hstep df1 "rca_pub" (h _ (by decide))
  obtain ⟨df3, h2, hc3⟩ := hstep df2 "rca_citation"
    (by rw [hc2]; exact h _ (by decide))
  have hc31 : df3.cols = df1.cols := by rw [hc3, hc2]
  unfold prepareTail
  rw [h1, except_bind_ok, h2, except_bind_ok]
  have hdrop : dropna df3 ["rca_pub", "rca_citation"] =
      Except.ok ⟨df3.cols, df3.rows.filter
        (fun r => ["rca_pub", "rca_citation"].all
          (fun c => notNull (cellAt df3 c r)))⟩ := by
    refine dropna_ok_iff.mpr ⟨?_, rfl⟩
    intro c hcs
    rw [hc31]
    rcases List.mem_cons.mp hcs with rfl | hcs
    · exact h _ (by decide)
    · rcases List.mem_cons.mp hcs with rfl | hcs
      · exact h _ (by decide)
      · cases hcs
  rw [hdrop, except_bind_ok]
  have hsel : ∀ c ∈ canonical_columns,
      c ∈ (⟨df3.cols, df3.rows.filter
        (fun r => ["rca_pub", "rca_citation"].all
          (fun c => notNull (cellAt df3 c r)))⟩ : DataFrame).cols := by
    intro c hcs
    show c ∈ df3.cols
    rw [hc31]
    exact h c hcs
  rw [selectCols_ok_iff.mpr ⟨hsel, rfl⟩]
  rfl

theorem prepare_result_rows_numeric (rca_rows : List RawRow) :
    resultRowsNumeric (_prepare_rca_dataframe rca_rows) = true := by
  cases hres : _prepare_rca_dataframe rca_rows with
  | error e => rfl
  | ok out =>
  show allRowsNumeric out = true
  cases rca_rows with
  | nil =>
      have hout : out = ⟨canonical_columns, []⟩ := (Except.ok.inj hres).symm
      rw [hout]
      rfl
  | cons first rest =>
      simp only [_prepare_rca_dataframe] at hres
      cases first with
      | keyed kvs =>
          simp only [shapeResolve] at hres
          cases hck : collectKeyed (RawRow.keyed kvs :: rest) with
          | error e =>
              rw [hck, except_map_error, except_bind_error] at hres
              cases hres
          | ok recs =>
              rw [hck, except_map_ok, except_bind_ok] at hres
              exact prepareTail_rows_numeric
                (aliasCols_aligned (frameOfRecords_aligned recs)) hres
      | positional vs =>
          simp only [shapeResolve] at hres
          cases hcp : collectPositional (RawRow.positional vs :: rest) with
          | error e =>
              rw [hcp, except_bind_error, except_bind_error] at hres
              cases hres
          | ok rws =>
              rw [hcp, except_bind_ok] at hres
              cases hfl : frameOfLists (positional_columns.take vs.length) rws with
              | error e =>
                  rw [hfl, except_bind_error] at hres
                  cases hres
              | ok df0 =>
                  rw [hfl, except_bind_ok] at hres
                  have hA0 : df0.Aligned := by
                    obtain ⟨hdf, hlen⟩ := frameOfLists_ok hfl
                    rw [hdf]
                    intro r hr
                    exact hlen r hr
                  exact prepareTail_rows_numeric (aliasCols_aligned hA0) hres

/-! ## Claim theorems -/

/-- Claim C2, counterexample: for the keyed input whose single row lacks a
`discipline` field, `_prepare_rca_dataframe` does not terminate in a normal
result — the final column selection `df[["discipline", ...]]` raises a
`KeyError` — refuting "terminates in a normal result for every input row
list, including keyed rows that lack a discipline field". -/
theorem prepare_missing_discipline_raises :
    _prepare_rca_dataframe
      [RawRow.keyed [("rca_pub", Value.vNum 1), ("rca_citation", Value.vNum 2)]]
      = Except.error "KeyError" := rfl

/-- Claim C2, amended: the RCA normalizer terminates in a normal (possibly
empty) table for every keyed input batch in which a `discipline` field, a
`rca_pub` (or `rca_paper`) field and a `rca_citation` (or `publication`)
field each occur in at least one row; for keyed batches lacking a
`discipline` field entirely it instead raises a `KeyError` at the final
column selection. -/
theorem prepare_keyed_normal_of_fields (recs : List (List (String × Value)))
    (hd : "discipline" ∈ recordCols recs)
    (hp : "rca_pub" ∈ recordCols recs ∨ "rca_paper" ∈ recordCols recs)
    (hc : "rca_citation" ∈ recordCols recs ∨ "publication" ∈ recordCols recs) :
    exceptOk (_prepare_rca_dataframe (recs.map RawRow.keyed)) = true := by
  cases recs with
  | nil => simp [recordCols] at hd
  | cons rec rest =>
      have hcollect := collectKeyed_map (rec :: rest)
      simp only [List.map_cons] at hcollect ⊢
      simp only [_prepare_rca_dataframe, shapeResolve]
      rw [hcollect, except_map_ok, except_bind_ok]
      apply prepareTail_ok_of_cols
      intro c hcs
      simp only [canonical_columns, List.mem_cons, List.not_mem_nil,
        or_false] at hcs
      rcases hcs with rfl | rfl | rfl | rfl
      · exact aliasCols_mem_of_mem hd
      · exact aliasCols_cit_mem hc
      · exact aliasCols_pub_mem hp
      · exact aliasCols_color_mem _

/-- Witness for the amended C2 theorem at a concrete keyed batch. -/
theorem prepare_keyed_normal_of_fields_witness :
    exceptOk (_prepare_rca_dataframe
      ([[("discipline", Value.vStr "CS"), ("rca_citation", Value.vNum 1),
          ("rca_pub", Value.vNum 1)]].map RawRow.keyed)) = true :=
  prepare_keyed_normal_of_fields _ (by decide) (Or.inl (by decide))
    (Or.inl (by decide))

/-- Claim C3: for the keyed input
`[{discipline: "CS", rca_citation: 1.2, rca_pub: 0.8}]` the normalizer returns
exactly one row with those exact numeric values, the default color, and the
fixed output column order discipline, rca_citation, rca_pub, color. -/
theorem prepare_round_trip_keyed :
    _prepare_rca_dataframe
      [RawRow.keyed [("discipline", Value.vStr "CS"),
        ("rca_citation", Value.vNum 1.2), ("rca_pub", Value.vNum 0.8)]]
      = Except.ok ⟨["discipline", "rca_citation", "rca_pub", "color"],
          [[Value.vStr "CS", Value.vNum 1.2, Value.vNum 0.8,
            Value.vStr "#1f77b4"]]⟩ := rfl

/-- Claim C4: every row of any normal normalizer output carries numeric cells
in both RCA columns (a row whose `rca_pub` or `rca_citation` coercion failed
is never retained with a placeholder); and the input
`[{discipline: "X", rca_citation: "n/a", rca_pub: 1.0}]` yields a table with
zero rows. -/
theorem prepare_drop_unparsable :
    (∀ rca_rows : List RawRow,
        resultRowsNumeric (_prepare_rca_dataframe rca_rows) = true) ∧
      _prepare_rca_dataframe
        [RawRow.keyed [("discipline", Value.vStr "X"),
          ("rca_citation", Value.vStr "n/a"), ("rca_pub", Value.vNum 1.0)]]
        = Except.ok ⟨["discipline", "rca_citation", "rca_pub", "color"], []⟩ :=
  ⟨prepare_result_rows_numeric, rfl⟩

/-- Claim C5: when the first row is positional, all rows are assigned the
column names `[discipline, rca_pub, rca_citation, color]` truncated to the
length of the first row; and `[["Physics", 0.9, 1.1, "#ff0000"]]` yields one
row with `rca_pub = 0.9`, `rca_citation = 1.1`, `color = "#ff0000"`. -/
theorem prepare_positional_assignment :
    (∀ (vs : List Value) (rest : List (List Value)),
        vs.length ≤ 4 → (∀ r ∈ rest, r.length = vs.length) →
        frameOfLists (positional_columns.take vs.length) (vs :: rest)
          = Except.ok ⟨positional_columns.take vs.length, vs :: rest⟩) ∧
      _prepare_rca_dataframe
        [RawRow.positional [Value.vStr "Physics", Value.vNum 0.9,
          Value.vNum 1.1, Value.vStr "#ff0000"]]
        = Except.ok ⟨["discipline", "rca_citation", "rca_pub", "color"],
            [[Value.vStr "Physics", Value.vNum 1.1, Value.vNum 0.9,
              Value.vStr "#ff0000"]]⟩ := by
  constructor
  · intro vs rest h4 hr
    have hlen : (positional_columns.take vs.length).length = vs.length := by
      simp only [positional_columns, List.length_take, List.length_cons,
        List.length_nil]
      omega
    have hall : (vs :: rest).all
        (fun r => r.length == (positional_columns.take vs.length).length)
          = true := by
      rw [List.all_eq_true]
      intro r hrm
      rcases List.mem_cons.mp hrm with rfl | hmem
      · simp [hlen]
      · simp [hr r hmem, hlen]
    unfold frameOfLists
    rw [if_pos hall]
  · rfl

/-- Witness for the C5 theorem at the concrete positional batch. -/
theorem prepare_positional_assignment_witness :
    frameOfLists
        (positional_columns.take
          ([Value.vStr "Physics", Value.vNum 0.9, Value.vNum 1.1,
            Value.vStr "#ff0000"] : List Value).length)
        [[Value.vStr "Physics", Value.vNum 0.9, Value.vNum 1.1,
          Value.vStr "#ff0000"]]
      = Except.ok ⟨positional_columns.take
          ([Value.vStr "Physics", Value.vNum 0.9, Value.vNum 1.1,
            Value.vStr "#ff0000"] : List Value).length,
          [[Value.vStr "Physics", Value.vNum 0.9, Value.vNum 1.1,
            Value.vStr "#ff0000"]]⟩ :=
  prepare_positional_assignment.1 _ [] (by decide) (by intro r hr; cases hr)

/-- Claim C6: for the empty input row list the normalizer returns an empty
table that still has the four canonical columns defined and zero rows. -/
theorem prepare_empty_input :
    _prepare_rca_dataframe []
      = Except.ok ⟨["discipline", "rca_citation", "rca_pub", "color"], []⟩ := rfl

/-- Claim C1, counterexample: two concrete effect worlds refute the claim.
When both the live call and the bundled sample-file read fail,
`fetch_institutions` lets the read's exception escape to the caller; and when
the live call succeeds with an empty result list, the returned value is
neither a non-empty list nor the sample contents. -/
theorem fetch_institutions_counterexample :
    fetch_institutions
        (FetchWorld.mk (Except.error ()) (Except.error ()) : FetchWorld (List String))
      = Except.error () ∧
    fetch_institutions
        (FetchWorld.mk (Except.ok []) (Except.ok ["sample"]) : FetchWorld (List String))
      = Except.ok [] ∧
    (Except.ok ([] : List String) : Except Unit (List String)) ≠
      Except.ok ["sample"] :=
  ⟨rfl, rfl, by simp⟩

/-- Claim C1, amended: `fetch_institutions` returns the live response body
whenever the live call succeeds (even when it carries an empty result list);
whenever the live call fails it returns exactly the result of
`_safe_read_json` on the bundled sample file; and an exception escapes to the
caller exactly when the live call failed and the sample-file read itself also
raised. -/
theorem fetch_institutions_fallback {α : Type} (w : FetchWorld α) :
    (∀ body : α, w.live = Except.ok body →
      fetch_institutions w = Except.ok body) ∧
    (w.live = Except.error () →
      fetch_institutions w = _safe_read_json w.sample_file) ∧
    (∀ e : Unit, fetch_institutions w = Except.error e →
      w.live = Except.error () ∧ w.sample_file = Except.error e) := by
  cases hl : w.live with
  | ok body =>
      have hfi : fetch_institutions w = Except.ok body := by
        simp only [fetch_institutions, hl]
      refine ⟨?_, ?_, ?_⟩
      · intro b hb
        obtain rfl : body = b := Except.ok.inj hb
        exact hfi
      · intro h
        cases h
      · intro e he
        rw [hfi] at he
        cases he
  | error u =>
      cases u
      have hfi : fetch_institutions w = w.sample_file := by
        simp only [fetch_institutions, hl, _safe_read_json]
      refine ⟨?_, ?_, ?_⟩
      · intro b hb
        cases hb
      · intro _
        rw [hfi]
        rfl
      · intro e he
        rw [hfi] at he
        exact ⟨rfl, he⟩

/-- Witness for the amended C1 theorem, discharging each clause's hypotheses
at concrete worlds: a world where both effects succeed with distinct bodies
(the live body, not the sample, is returned), a world where only the live
call fails (the sample read's result is returned), and a world where both
fail (the escape condition yields both failure facts). -/
theorem fetch_institutions_fallback_witness :
    fetch_institutions
        (FetchWorld.mk (Except.ok ["body"]) (Except.ok ["sample"]) :
          FetchWorld (List String))
      = Except.ok ["body"] ∧
    fetch_institutions
        (FetchWorld.mk (Except.error ()) (Except.ok ["sample"]) :
          FetchWorld (List String))
      = _safe_read_json (Except.ok ["sample"]) ∧
    ((FetchWorld.mk (Except.error ()) (Except.error ()) : FetchWorld (List String)).live
        = Except.error () ∧
      (FetchWorld.mk (Except.error ()) (Except.error ()) : FetchWorld (List String)).sample_file
        = Except.error ()) :=
  ⟨(fetch_institutions_fallback ⟨Except.ok ["body"], Except.ok ["sample"]⟩).1
      ["body"] rfl,
    (fetch_institutions_fallback ⟨Except.error (), Except.ok ["sample"]⟩).2.1 rfl,
    (fetch_institutions_fallback ⟨Except.error (), Except.error ()⟩).2.2 () rfl⟩

/-- Claim C8: identifier extraction is idempotent — extracting from the
extraction's output returns it unchanged; a string without a slash (an
already-bare identifier) is returned unchanged; and extracting from
`"https://x/institutions/I12345"` yields `"I12345"`. -/
theorem extract_id_spec :
    (∀ s : String, _extract_id (_extract_id s) = _extract_id s) ∧
    _extract_id "https://x/institutions/I12345" = "I12345" ∧
    (∀ s : String, (∀ c ∈ s.data, c ≠ '/') → _extract_id s = s) := by
  refine ⟨?_, rfl, ?_⟩
  · intro s
    unfold _extract_id
    simp only [List.reverse_reverse]
    congr 1
    have hall : ∀ x ∈ s.data.reverse.takeWhile (fun c => c != '/'),
        (x != '/') = true := by
      intro x hx
      have hpx := List.mem_takeWhile_imp hx
      exact hpx
    exact congrArg List.reverse (List.takeWhile_eq_self_iff.mpr hall)
  · intro s hs
    have hall : ∀ x ∈ s.data.reverse, (x != '/') = true := by
      intro x hx
      have h2 := hs x (List.mem_reverse.mp hx)
      simpa using h2
    unfold _extract_id
    rw [List.takeWhile_eq_self_iff.mpr hall, List.reverse_reverse]

/-- Witness for the bare-identifier clause of the C8 theorem. -/
theorem extract_id_spec_witness : _extract_id "I12345" = "I12345" :=
  extract_id_spec.2.2 "I12345" (by decide)

theorem aliasPub_colVals_ne {df : DataFrame} {c : String} (hA : df.Aligned)
    (hmem : c ∈ df.cols) (hne : c ≠ "rca_pub") :
    colVals (aliasPub df) c = colVals df c := by
  unfold aliasPub
  split_ifs with h
  · exact colVals_setCol_ne hA (colVals_length df "rca_paper") hne hmem
  · rfl

/-- Claim C7: over any keyed batch, if the `rca_pub` column is absent but
`rca_paper` is present then the aliased frame's `rca_pub` column equals the
original `rca_paper` column; if `rca_citation` is absent but `publication` is
present then the aliased `rca_citation` column equals the original
`publication` column; and if `color` is absent it is defaulted to the fixed
hex value on every row. -/
theorem alias_columns_spec (recs : List (List (String × Value))) :
    ("rca_pub" ∉ (frameOfRecords recs).cols →
      "rca_paper" ∈ (frameOfRecords recs).cols →
      colVals (aliasCols (frameOfRecords recs)) "rca_pub"
        = colVals (frameOfRecords recs) "rca_paper") ∧
    ("rca_citation" ∉ (frameOfRecords recs).cols →
      "publication" ∈ (frameOfRecords recs).cols →
      colVals (aliasCols (frameOfRecords recs)) "rca_citation"
        = colVals (frameOfRecords recs) "publication") ∧
    ("color" ∉ (frameOfRecords recs).cols →
      colVals (aliasCols (frameOfRecords recs)) "color"
        = List.replicate (frameOfRecords recs).rows.length
            (Value.vStr "#1f77b4")) := by
  have hA : (frameOfRecords recs).Aligned := frameOfRecords_aligned recs
  refine ⟨?_, ?_, ?_⟩
  · intro hnp hpp
    have hPub : aliasPub (frameOfRecords recs)
        = setCol (frameOfRecords recs) "rca_pub"
            (colVals (frameOfRecords recs) "rca_paper") := by
      unfold aliasPub
      rw [if_pos ⟨hnp, hpp⟩]
    have hA1 := aliasPub_aligned hA
    have hmem1 : "rca_pub" ∈ (aliasPub (frameOfRecords recs)).cols := by
      rw [hPub]
      exact mem_setCol_cols_self _ _ _
    have hA2 := aliasCitation_aligned hA1
    have hmem2 : "rca_pub" ∈ (aliasCitation (aliasPub (frameOfRecords recs))).cols :=
      mem_of_cols_or (aliasCitation_cols_or _) hmem1
    show colVals (defaultColor (aliasCitation (aliasPub (frameOfRecords recs))))
      "rca_pub" = _
    rw [defaultColor_colVals_ne hA2 hmem2 (by decide),
      aliasCitation_colVals_ne hA1 hmem1 (by decide), hPub]
    exact colVals_setCol_self hA (colVals_length _ "rca_paper")
  · intro hnc hpub
    have hnc1 : "rca_citation" ∉ (aliasPub (frameOfRecords recs)).cols :=
      not_mem_of_cols_or (aliasPub_cols_or _) (by decide) hnc
    have hpub1 : "publication" ∈ (aliasPub (frameOfRecords recs)).cols :=
      mem_of_cols_or (aliasPub_cols_or _) hpub
    have hA1 := aliasPub_aligned hA
    have hCit : aliasCitation (aliasPub (frameOfRecords recs))
        = setCol (aliasPub (frameOfRecords recs)) "rca_citation"
            (colVals (aliasPub (frameOfRecords recs)) "publication") := by
      unfold aliasCitation
      rw [if_pos ⟨hnc1, hpub1⟩]
    have hA2 := aliasCitation_aligned hA1
    have hmem2 :
        "rca_citation" ∈ (aliasCitation (aliasPub (frameOfRecords recs))).cols := by
      rw [hCit]
      exact mem_setCol_cols_self _ _ _
    show colVals (defaultColor (aliasCitation (aliasPub (frameOfRecords recs))))
      "rca_citation" = _
    rw [defaultColor_colVals_ne hA2 hmem2 (by decide), hCit,
      colVals_setCol_self hA1 (colVals_length _ "publication")]
    exact aliasPub_colVals_ne hA hpub (by decide)
  · intro hncol
    have hncol1 : "color" ∉ (aliasPub (frameOfRecords recs)).cols :=
      not_mem_of_cols_or (aliasPub_cols_or _) (by decide) hncol
    have hncol2 : "color" ∉ (aliasCitation (aliasPub (frameOfRecords recs))).cols :=
      not_mem_of_cols_or (aliasCitation_cols_or _) (by decide) hncol1
    have hA2 := aliasCitation_aligned (aliasPub_aligned hA)
    have hColor : defaultColor (aliasCitation (aliasPub (frameOfRecords recs)))
        = setCol (aliasCitation (aliasPub (frameOfRecords recs))) "color"
            ((aliasCitation (aliasPub (frameOfRecords recs))).rows.map
              (fun _ => Value.vStr "#1f77b4")) := by
      unfold defaultColor
      rw [if_pos hncol2]
    show colVals (defaultColor (aliasCitation (aliasPub (frameOfRecords recs))))
      "color" = _
    rw [hColor, colVals_setCol_self hA2 (by simp), List.map_const',
      aliasCitation_rows_length, aliasPub_rows_length]

/-- Witness for the C7 theorem at a concrete keyed batch exercising all three
aliasing conditions. -/
theorem alias_columns_spec_witness :
    colVals (aliasCols (frameOfRecords [[("discipline", Value.vStr "CS"),
        ("rca_paper", Value.vNum 2), ("publication", Value.vNum 3)]])) "rca_pub"
      = colVals (frameOfRecords [[("discipline", Value.vStr "CS"),
          ("rca_paper", Value.vNum 2), ("publication", Value.vNum 3)]]) "rca_paper" ∧
    colVals (aliasCols (frameOfRecords [[("discipline", Value.vStr "CS"),
        ("rca_paper", Value.vNum 2), ("publication", Value.vNum 3)]])) "rca_citation"
      = colVals (frameOfRecords [[("discipline", Value.vStr "CS"),
          ("rca_paper", Value.vNum 2), ("publication", Value.vNum 3)]]) "publication" ∧
    colVals (aliasCols (frameOfRecords [[("discipline", Value.vStr "CS"),
        ("rca_paper", Value.vNum 2), ("publication", Value.vNum 3)]])) "color"
      = List.replicate (frameOfRecords [[("discipline", Value.vStr "CS"),
          ("rca_paper", Value.vNum 2),
          ("publication", Value.vNum 3)]]).rows.length (Value.vStr "#1f77b4") :=
  ⟨(alias_columns_spec _).1 (by decide) (by decide),
    (alias_columns_spec _).2.1 (by decide) (by decide),
    (alias_columns_spec _).2.2 (by decide)⟩

theorem qmin_le_left (a b : ℚ) : qmin a b ≤ a := by
  unfold qmin
  split_ifs with h
  · exact le_refl a
  · exact le_of_not_le h

theorem qmin_le_right (a b : ℚ) : qmin a b ≤ b := by
  unfold qmin
  split_ifs with h
  · exact h
  · exact le_refl b

theorem le_qmax_left (a b : ℚ) : a ≤ qmax a b := by
  unfold qmax
  split_ifs with h
  · exact h
  · exact le_refl a

theorem le_qmax_right (a b : ℚ) : b ≤ qmax a b := by
  unfold qmax
  split_ifs with h
  · exact le_refl b
  · exact le_of_not_le h

theorem foldl_qmin_le (qs : List ℚ) : ∀ q0 : ℚ,
    qs.foldl qmin q0 ≤ q0 ∧ ∀ x ∈ qs, qs.foldl qmin q0 ≤ x := by
  induction qs with
  | nil =>
      intro q0
      exact ⟨le_refl _, by intro x hx; cases hx⟩
  | cons a t ih =>
      intro q0
      constructor
      · exact ((ih (qmin q0 a)).1).trans (qmin_le_left _ _)
      · intro x hx
        rcases List.mem_cons.mp hx with rfl | hx
        · exact ((ih (qmin q0 x)).1).trans (qmin_le_right _ _)
        · exact (ih (qmin q0 a)).2 x hx

theorem le_foldl_qmax (qs : List ℚ) : ∀ q0 : ℚ,
    q0 ≤ qs.foldl qmax q0 ∧ ∀ x ∈ qs, x ≤ qs.foldl qmax q0 := by
  induction qs with
  | nil =>
      intro q0
      exact ⟨le_refl _, by intro x hx; cases hx⟩
  | cons a t ih =>
      intro q0
      constructor
      · exact (le_qmax_left _ _).trans (ih (qmax q0 a)).1
      · intro x hx
        rcases List.mem_cons.mp hx with rfl | hx
        · exact (le_qmax_right _ _).trans (ih (qmax q0 x)).1
        · exact (ih (qmax q0 a)).2 x hx

theorem render_scatter_ranges_some {df : DataFrame} {xr yr : ℚ × ℚ}
    (h : render_scatter_ranges df = some (xr, yr)) :
    ∃ x_min x_max y_min y_max : ℚ,
      seriesMin? (colVals df "rca_pub") = some x_min ∧
      seriesMax? (colVals df "rca_pub") = some x_max ∧
      seriesMin? (colVals df "rca_citation") = some y_min ∧
      seriesMax? (colVals df "rca_citation") = some y_max ∧
      xr = (x_min - qmax 0.1 ((if x_max ≠ x_min then x_max - x_min else 0.5) * 0.15),
        x_max + qmax 0.1 ((if x_max ≠ x_min then x_max - x_min else 0.5) * 0.15)) ∧
      yr = (y_min - qmax 0.1 ((if y_max ≠ y_min then y_max - y_min else 0.5) * 0.15),
        y_max + qmax 0.1 ((if y_max ≠ y_min then y_max - y_min else 0.5) * 0.15)) := by
  unfold render_scatter_ranges at h
  split_ifs at h with hemp
  cases hx1 : seriesMin? (colVals df "rca_pub") with
  | none => rw [hx1] at h; cases h
  | some x_min =>
  rw [hx1] at h
  cases hx2 : seriesMax? (colVals df "rca_pub") with
  | none => rw [hx2] at h; cases h
  | some x_max =>
  rw [hx2] at h
  cases hy1 : seriesMin? (colVals df "rca_citation") with
  | none => rw [hy1] at h; cases h
  | some y_min =>
  rw [hy1] at h
  cases hy2 : seriesMax? (colVals df "rca_citation") with
  | none => rw [hy2] at h; cases h
  | some y_max =>
  rw [hy2] at h
  have h' := Option.some.inj h
  rw [Prod.mk.injEq] at h'
  exact ⟨x_min, x_max, y_min, y_max, rfl, rfl, rfl, rfl, h'.1.symm, h'.2.symm⟩

/-- Claim C9: whenever `render_scatter` computes axis ranges, each range is
`[min - padding, max + padding]` with `padding = max(0.1, span * 0.15)` and a
zero span replaced by `0.5`; consequently every data value on an axis —
in particular a single point — lies strictly inside the computed range. -/
theorem render_scatter_ranges_spec :
    (∀ (df : DataFrame) (xr yr : ℚ × ℚ),
        render_scatter_ranges df = some (xr, yr) →
        ∃ x_min x_max y_min y_max : ℚ,
          seriesMin? (colVals df "rca_pub") = some x_min ∧
          seriesMax? (colVals df "rca_pub") = some x_max ∧
          seriesMin? (colVals df "rca_citation") = some y_min ∧
          seriesMax? (colVals df "rca_citation") = some y_max ∧
          xr = (x_min - qmax 0.1 ((if x_max ≠ x_min then x_max - x_min else 0.5) * 0.15),
            x_max + qmax 0.1 ((if x_max ≠ x_min then x_max - x_min else 0.5) * 0.15)) ∧
          yr = (y_min - qmax 0.1 ((if y_max ≠ y_min then y_max - y_min else 0.5) * 0.15),
            y_max + qmax 0.1 ((if y_max ≠ y_min then y_max - y_min else 0.5) * 0.15))) ∧
    (∀ (df : DataFrame) (xr yr : ℚ × ℚ),
        render_scatter_ranges df = some (xr, yr) →
        (∀ q ∈ numsOf (colVals df "rca_pub"), xr.1 < q ∧ q < xr.2) ∧
        (∀ q ∈ numsOf (colVals df "rca_citation"), yr.1 < q ∧ q < yr.2)) := by
  constructor
  · intro df xr yr h
    exact render_scatter_ranges_some h
  · intro df xr yr h
    obtain ⟨x_min, x_max, y_min, y_max, hx1, hx2, hy1, hy2, hxr, hyr⟩ :=
      render_scatter_ranges_some h
    constructor
    · intro q hq
      have hb : x_min ≤ q ∧ q ≤ x_max := by
        cases hnums : numsOf (colVals df "rca_pub") with
        | nil =>
            unfold seriesMin? at hx1
            rw [hnums] at hx1
            cases hx1
        | cons a as =>
            unfold seriesMin? at hx1
            unfold seriesMax? at hx2
            rw [hnums] at hx1 hx2 hq
            have e1 : as.foldl qmin a = x_min := Option.some.inj hx1
            have e2 : as.foldl qmax a = x_max := Option.some.inj hx2
            constructor
            · rw [← e1]
              rcases List.mem_cons.mp hq with rfl | hq
              · exact (foldl_qmin_le as q).1
              · exact (foldl_qmin_le as a).2 q hq
            · rw [← e2]
              rcases List.mem_cons.mp hq with rfl | hq
              · exact (le_foldl_qmax as q).1
              · exact (le_foldl_qmax as a).2 q hq
      have hpad : (0 : ℚ) <
          qmax 0.1 ((if x_max ≠ x_min then x_max - x_min else 0.5) * 0.15) :=
        lt_of_lt_of_le (by norm_num) (le_qmax_left _ _)
      rw [hxr]
      constructor
      · have hlt : x_min -
            qmax 0.1 ((if x_max ≠ x_min then x_max - x_min else 0.5) * 0.15)
              < x_min := by linarith
        exact lt_of_lt_of_le hlt hb.1
      · have hlt : x_max < x_max +
            qmax 0.1 ((if x_max ≠ x_min then x_max - x_min else 0.5) * 0.15) := by
          linarith
        exact lt_of_le_of_lt hb.2 hlt
    · intro q hq
      have hb : y_min ≤ q ∧ q ≤ y_max := by
        cases hnums : numsOf (colVals df "rca_citation") with
        | nil =>
            unfold seriesMin? at hy1
            rw [hnums] at hy1
            cases hy1
        | cons a as =>
            unfold seriesMin? at hy1
            unfold seriesMax? at hy2
            rw [hnums] at hy1 hy2 hq
            have e1 : as.foldl qmin a = y_min := Option.some.inj hy1
            have e2 : as.foldl qmax a = y_max := Option.some.inj hy2
            constructor
            · rw [← e1]
              rcases List.mem_cons.mp hq with rfl | hq
              · exact (foldl_qmin_le as q).1
              · exact (foldl_qmin_le as a).2 q hq
            · rw [← e2]
              rcases List.mem_cons.mp hq with rfl | hq
              · exact (le_foldl_qmax as q).1
              · exact (le_foldl_qmax as a).2 q hq
      have hpad : (0 : ℚ) <
          qmax 0.1 ((if y_max ≠ y_min then y_max - y_min else 0.5) * 0.15) :=
        lt_of_lt_of_le (by norm_num) (le_qmax_left _ _)
      rw [hyr]
      constructor
      · have hlt : y_min -
            qmax 0.1 ((if y_max ≠ y_min then y_max - y_min else 0.5) * 0.15)
              < y_min := by linarith
        exact lt_of_lt_of_le hlt hb.1
      · have hlt : y_max < y_max +
            qmax 0.1 ((if y_max ≠ y_min then y_max - y_min else 0.5) * 0.15) := by
          linarith
        exact lt_of_le_of_lt hb.2 hlt

/-- Witness for the C9 theorem: for the single data point 2.0 the computed
range (1.9, 2.1) strictly contains the point. -/
theorem render_scatter_ranges_spec_witness : (1.9 : ℚ) < 2 ∧ (2 : ℚ) < 2.1 := by
  have h := render_scatter_ranges_spec.2
    ⟨canonical_columns,
      [[Value.vStr "d", Value.vNum 2, Value.vNum 2, Value.vStr "#1f77b4"]]⟩
    (1.9, 2.1) (1.9, 2.1) (by with_unfolding_all rfl)
  have h2 := h.1 2 (by with_unfolding_all decide)
  exact ⟨h2.1, h2.2⟩

/-! ### Lemmas about the label dictionary of `render_results` -/

theorem pyGet_eq_none_iff (m : List (String × SummaryEntry)) (k : String) :
    pyGet m k = none ↔ k ∉ m.map Prod.fst := by
  induction m with
  | nil => simp [pyGet]
  | cons kv t ih =>
      by_cases h : k = kv.1
      · simp [pyGet, h]
      · simp [pyGet, h, ih]

theorem pyGet_map_replace (m : List (String × SummaryEntry)) (k k' : String)
    (v : SummaryEntry) :
    pyGet (m.map (fun kv => if kv.1 = k then (k, v) else kv)) k'
      = if k' = k then (pyGet m k').map (fun _ => v) else pyGet m k' := by
  induction m with
  | nil =>
      by_cases h : k' = k <;> simp [pyGet, h]
  | cons kv t ih =>
      simp only [List.map_cons]
      by_cases hak : kv.1 = k
      · by_cases hk' : k' = k
        · simp [pyGet, hak, hk', ih]
        · have hk'a : k' ≠ kv.1 := fun he => hk' (he.trans hak)
          simp [pyGet, hak, hk', hk'a, ih]
      · by_cases hk'a : k' = kv.1
        · have hk'k : k' ≠ k := fun he => hak (hk'a.symm.trans he)
          simp [pyGet, hak, hk'a, hk'k]
        · simp [pyGet, hak, hk'a, ih]

theorem pyGet_append (m m₂ : List (String × SummaryEntry)) (k : String) :
    pyGet (m ++ m₂) k
      = match pyGet m k with
        | some b => some b
        | none => pyGet m₂ k := by
  induction m with
  | nil => rfl
  | cons kv t ih =>
      by_cases h : k = kv.1
      · simp [pyGet, h]
      · simp only [List.cons_append]
        simp [pyGet, h, ih]

theorem pyGet_dictInsert (m : List (String × SummaryEntry)) (k k' : String)
    (v : SummaryEntry) :
    pyGet (dictInsert m k v) k' = if k' = k then some v else pyGet m k' := by
  by_cases hmem : k ∈ m.map Prod.fst
  · rw [show dictInsert m k v = m.map (fun kv => if kv.1 = k then (k, v) else kv)
      from by unfold dictInsert; rw [if_pos hmem]]
    rw [pyGet_map_replace]
    by_cases hk' : k' = k
    · rw [if_pos hk', if_pos hk']
      subst hk'
      obtain ⟨b, hb⟩ : ∃ b, pyGet m k' = some b := by
        cases hg : pyGet m k' with
        | none => exact absurd hmem ((pyGet_eq_none_iff m k').mp hg)
        | some b => exact ⟨b, rfl⟩
      rw [hb]
      rfl
    · rw [if_neg hk', if_neg hk']
  · rw [show dictInsert m k v = m ++ [(k, v)]
      from by unfold dictInsert; rw [if_neg hmem]]
    rw [pyGet_append]
    by_cases hk' : k' = k
    · subst hk'
      have hnone : pyGet m k' = none :=
        (pyGet_eq_none_iff m k').mpr hmem
      rw [if_pos rfl, hnone]
      simp [pyGet]
    · rw [if_neg hk']
      cases hg : pyGet m k' with
      | some b => rfl
      | none =>
          simp [pyGet, hk']

theorem pyGet_fold (es : List SummaryEntry) :
    ∀ (m : List (String × SummaryEntry)) (label : String),
      pyGet (es.foldl (fun m e => dictInsert m (entryLabel e) e) m) label
        = match (es.filter (fun e => entryLabel e == label)).getLast? with
          | some x => some x
          | none => pyGet m label := by
  induction es with
  | nil =>
      intro m label
      rfl
  | cons e t ih =>
      intro m label
      rw [List.foldl_cons, ih (dictInsert m (entryLabel e) e) label,
        pyGet_dictInsert, List.filter_cons]
      by_cases hpe : entryLabel e = label
      · have hbeq : (entryLabel e == label) = true := by simp [hpe]
        rw [if_pos hbeq]
        cases hfl : t.filter (fun x => entryLabel x == label) with
        | nil =>
            show (if label = entryLabel e then some e else pyGet m label) = some e
            rw [if_pos hpe.symm]
        | cons b bs =>
            rw [List.getLast?_cons_cons]
            cases hbl : (b :: bs).getLast? with
            | some x => rfl
            | none =>
                have hemp := List.getLast?_eq_none_iff.mp hbl
                cases hemp
      · have hbeq : ¬((entryLabel e == label) = true) := by simp [hpe]
        rw [if_neg hbeq]
        cases hft : (t.filter (fun x => entryLabel x == label)).getLast? with
        | some x => rfl
        | none =>
            show (if label = entryLabel e then some e else pyGet m label)
              = pyGet m label
            rw [if_neg (fun h => hpe h.symm)]

theorem dictInsert_keys (m : List (String × SummaryEntry)) (k : String)
    (v : SummaryEntry) :
    (dictInsert m k v).map Prod.fst
      = if k ∈ m.map Prod.fst then m.map Prod.fst
        else m.map Prod.fst ++ [k] := by
  unfold dictInsert
  split_ifs with h
  · rw [List.map_map]
    refine List.map_congr_left ?_
    intro kv _
    by_cases hk : kv.1 = k
    · simp [Function.comp, hk]
    · simp [Function.comp, hk]
  · simp

theorem label_fold_keys_nodup (es : List SummaryEntry) :
    ∀ m : List (String × SummaryEntry), (m.map Prod.fst).Nodup →
      ((es.foldl (fun m e => dictInsert m (entryLabel e) e) m).map Prod.fst).Nodup := by
  induction es with
  | nil =>
      intro m hm
      exact hm
  | cons e t ih =>
      intro m hm
      rw [List.foldl_cons]
      refine ih _ ?_
      rw [dictInsert_keys]
      split_ifs with h
      · exact hm
      · simp [List.nodup_append, hm, h]

/-- Claim C10: in the results presenter, candidates are keyed by the display
label `"{name} ({country})"` — the entry returned for a selected label is the
LAST summarized candidate carrying that label (earlier duplicate-labeled
candidates are shadowed and can never be returned), and the selectable label
set holds one entry per distinct label. -/
theorem render_results_label_shadowing :
    (∀ (results : List Candidate) (label : String),
        render_results_selection results label
          = ((results.map summarize).filter
              (fun e => entryLabel e == label)).getLast?) ∧
    (∀ summary : List SummaryEntry,
        ((label_to_item summary).map Prod.fst).Nodup) := by
  constructor
  · intro results label
    show pyGet ((results.map summarize).foldl
      (fun m e => dictInsert m (entryLabel e) e) []) label = _
    rw [pyGet_fold]
    cases hft : ((results.map summarize).filter
        (fun e => entryLabel e == label)).getLast? with
    | some x => rfl
    | none => rfl
  · intro summary
    exact label_fold_keys_nodup summary [] (by simp)

end UniRCAVis
